import Mathlib

/-!
Verification development for the kenotex editing engine.

The Rust source operates on lines of Unicode grapheme clusters: every
operation first converts a line (`String`) to its grapheme vector via
`line.graphemes(true)` and works with grapheme indices.  We embed a line
as `List Char`, one `Char` per grapheme cluster; this is faithful for
every input appearing in this development (ASCII and CJK characters,
where each cluster is a single scalar value and lowercasing is
one-to-one).  Rust operations that can panic (unchecked `Vec`/slice
indexing) are embedded as `Option`-valued functions where `none` marks
the panic.
-/

namespace Kenotex

/-- A line of text: one `Char` per grapheme cluster. -/
abbrev Line := List Char

/-- Embedding of `BufferSnapshot` (buffer.rs): full copy of the line
sequence plus cursor position. -/
structure BufferSnapshot where
  lines : List Line
  cursorRow : Nat
  cursorCol : Nat
  deriving Repr, DecidableEq

/-- Embedding of `TextBuffer` (buffer.rs) together with its
`UndoHistory` (undo and redo stacks). -/
structure TextBuffer where
  lines : List Line
  cursorRow : Nat
  cursorCol : Nat
  undoStack : List BufferSnapshot
  redoStack : List BufferSnapshot
  deriving Repr, DecidableEq

/-- `MAX_UNDO_LEVELS` from buffer.rs. -/
def MAX_UNDO_LEVELS : Nat := 50

namespace TextBuffer

/-- `TextBuffer::new`: a single empty line, cursor at the origin. -/
def new : TextBuffer :=
  { lines := [[]], cursorRow := 0, cursorCol := 0, undoStack := [], redoStack := [] }

/-- Remove one trailing carriage return, as the `LinesMap` step of Rust
`str::lines` does to a segment that was terminated by a line feed. -/
def stripCr (l : List Char) : List Char :=
  if l.getLast? = some '\r' then l.dropLast else l

/-- Embedding of Rust `str::lines`: split on `'\n'`; a segment that was
terminated by a `'\n'` additionally loses one trailing `'\r'`; a final
empty segment produced by a trailing `'\n'` is not emitted.  The
accumulator holds the current segment reversed. -/
def linesGo : List Char → List Char → List (List Char)
  | [], cur => if cur = [] then [] else [cur.reverse]
  | c :: rest, cur =>
      if c = '\n' then stripCr cur.reverse :: linesGo rest []
      else linesGo rest (c :: cur)

/-- Rust `content.lines()` as used by `TextBuffer::from_string`. -/
def rustLines (s : List Char) : List (List Char) := linesGo s []

/-- `TextBuffer::from_string`: an empty input gives one empty line,
otherwise the input is split by `lines()`. -/
def fromString (content : List Char) : TextBuffer :=
  { lines := if content = [] then [[]] else rustLines content,
    cursorRow := 0, cursorCol := 0, undoStack := [], redoStack := [] }

/-- `TextBuffer::to_string`: `self.lines.join("\n")`. -/
def toString (b : TextBuffer) : List Char :=
  (b.lines.intersperse ['\n']).flatten

/-- `TextBuffer::line_count`. -/
def lineCount (b : TextBuffer) : Nat := b.lines.length

/-- `TextBuffer::current_line_len`: grapheme count of the cursor's line,
`0` when the row is out of range (`.get(...).unwrap_or`). -/
def currentLineLen (b : TextBuffer) : Nat :=
  (b.lines.getD b.cursorRow []).length

/-- `TextBuffer::current_line`: the cursor's line, empty when the row is
out of range (`.get(...).unwrap_or("")`). -/
def currentLine (b : TextBuffer) : Line :=
  b.lines.getD b.cursorRow []

/-- `TextBuffer::set_cursor`: row is clamped to the last line, column to
the clamped row's grapheme count. -/
def setCursor (b : TextBuffer) (row col : Nat) : TextBuffer :=
  let b := { b with cursorRow := min row (b.lines.length - 1) }
  { b with cursorCol := min col b.currentLineLen }

/-- `TextBuffer::insert_newline`: split the cursor's line at the cursor
column; `self.lines[self.cursor_row]` panics (`none`) when the row is out
of range. -/
def insertNewline (b : TextBuffer) : Option TextBuffer :=
  if h : b.cursorRow < b.lines.length then
    let line := b.lines.get ⟨b.cursorRow, h⟩
    let splitPos := min b.cursorCol line.length
    let before := line.take splitPos
    let after := line.drop splitPos
    let lines1 := b.lines.set b.cursorRow before
    let row1 := b.cursorRow + 1
    some { b with
      lines := lines1.take row1 ++ after :: lines1.drop row1,
      cursorRow := row1, cursorCol := 0 }
  else none

/-- `TextBuffer::insert_char`: `'\n'` delegates to `insert_newline`;
otherwise the character is inserted at the cursor column (clamped to the
line length) and the cursor column advances by one.  A cursor row equal
to the line count first receives a pushed empty line; a row beyond that
still panics (`none`). -/
def insertChar (b : TextBuffer) (c : Char) : Option TextBuffer :=
  if c = '\n' then b.insertNewline
  else
    let b := if b.lines.length ≤ b.cursorRow then { b with lines := b.lines ++ [[]] } else b
    if h : b.cursorRow < b.lines.length then
      let line := b.lines.get ⟨b.cursorRow, h⟩
      let insertPos := min b.cursorCol line.length
      let newLine := line.take insertPos ++ c :: line.drop insertPos
      some { b with lines := b.lines.set b.cursorRow newLine, cursorCol := b.cursorCol + 1 }
    else none

/-- `TextBuffer::save_undo_snapshot`: push a full snapshot, evict the
oldest entry once the stack exceeds `MAX_UNDO_LEVELS`, clear the redo
stack. -/
def saveUndoSnapshot (b : TextBuffer) : TextBuffer :=
  let snapshot : BufferSnapshot := ⟨b.lines, b.cursorRow, b.cursorCol⟩
  let stack := b.undoStack ++ [snapshot]
  let stack := if MAX_UNDO_LEVELS < stack.length then stack.drop 1 else stack
  { b with undoStack := stack, redoStack := [] }

/-- `TextBuffer::undo`: pop the newest undo snapshot, push the current
state onto the redo stack, restore the snapshot; returns `false` and
leaves the buffer unchanged when the undo stack is empty. -/
def undo (b : TextBuffer) : Bool × TextBuffer :=
  match b.undoStack.getLast? with
  | some snapshot =>
      let current : BufferSnapshot := ⟨b.lines, b.cursorRow, b.cursorCol⟩
      (true, { lines := snapshot.lines, cursorRow := snapshot.cursorRow,
               cursorCol := snapshot.cursorCol,
               undoStack := b.undoStack.dropLast,
               redoStack := b.redoStack ++ [current] })
  | none => (false, b)

/-- `TextBuffer::redo`: mirror of `undo`. -/
def redo (b : TextBuffer) : Bool × TextBuffer :=
  match b.redoStack.getLast? with
  | some snapshot =>
      let current : BufferSnapshot := ⟨b.lines, b.cursorRow, b.cursorCol⟩
      (true, { lines := snapshot.lines, cursorRow := snapshot.cursorRow,
               cursorCol := snapshot.cursorCol,
               undoStack := b.undoStack ++ [current],
               redoStack := b.redoStack.dropLast })
  | none => (false, b)

/-- Rust slice `l[a..b]`: panics (`none`) unless `a ≤ b ≤ l.length`. -/
def rustSlice (l : List Char) (a b : Nat) : Option (List Char) :=
  if a ≤ b ∧ b ≤ l.length then some ((l.take b).drop a) else none

/-- `TextBuffer::delete_range` (half-open, grapheme-indexed).  Column
indices are clamped to the line length, but `self.lines[start_row]` and
`self.lines[end_row]` are unchecked Vec indexing and the same-row slice
`graphemes[sc..ec]` requires `sc ≤ ec`; those panics are modelled as
`none`.  For `start_row < end_row` the rows strictly between are removed
and the first line's prefix is merged with the last line's suffix. -/
def deleteRange (b : TextBuffer) (startRow startCol endRow endCol : Nat) :
    Option (List Char × TextBuffer) :=
  if startRow = endRow then
    match b.lines.get? startRow with
    | none => none
    | some line =>
      let sc := min startCol line.length
      let ec := min endCol line.length
      match rustSlice line sc ec with
      | none => none
      | some deleted =>
        let remaining := line.take sc ++ line.drop ec
        some (deleted, { b with lines := b.lines.set startRow remaining })
  else
    match b.lines.get? startRow, b.lines.get? endRow with
    | some firstLine, some lastLine =>
      let sc := min startCol firstLine.length
      let ec := min endCol lastLine.length
      let middle := (b.lines.take endRow).drop (startRow + 1)
      let deleted := firstLine.drop sc ++ '\n' ::
        ((middle.map (fun l => l ++ ['\n'])).flatten ++ lastLine.take ec)
      let merged := firstLine.take sc ++ lastLine.drop ec
      let lines1 := if startRow < endRow
        then b.lines.take (startRow + 1) ++ b.lines.drop (endRow + 1)
        else b.lines
      some (deleted, { b with lines := lines1.set startRow merged })
    | _, _ => none

/-- `TextBuffer::extract_range`: read-only variant of `delete_range`,
with the same unchecked row indexing and same-row slice panic. -/
def extractRange (b : TextBuffer) (startRow startCol endRow endCol : Nat) :
    Option (List Char) :=
  if startRow = endRow then
    match b.lines.get? startRow with
    | none => none
    | some line =>
      let sc := min startCol line.length
      let ec := min endCol line.length
      rustSlice line sc ec
  else
    match b.lines.get? startRow, b.lines.get? endRow with
    | some firstLine, some lastLine =>
      let sc := min startCol firstLine.length
      let ec := min endCol lastLine.length
      let middle := (b.lines.take endRow).drop (startRow + 1)
      some (firstLine.drop sc ++ '\n' ::
        ((middle.map (fun l => l ++ ['\n'])).flatten ++ lastLine.take ec))
    | _, _ => none

/-- `TextBuffer::paste_charwise`: insert `text` at grapheme position
`insertPos` of the cursor's line (`self.lines[self.cursor_row]` panics,
`none`, when the row is out of range).  Text without a line break is
spliced into the line and the cursor column becomes
`insert_pos + len - 1` (saturating).  Text with line breaks is split on
`'\n'`; the first segment joins the text before the insertion point, the
middle segments become their own lines, the last segment joins the text
after the insertion point, and the cursor moves to the last segment's
row at column `last_len - 1` (saturating). -/
def pasteCharwise (b : TextBuffer) (text : List Char) (insertPos : Nat) : Option TextBuffer :=
  match b.lines.get? b.cursorRow with
  | none => none
  | some line =>
    let insertPos := min insertPos line.length
    let before := line.take insertPos
    let after := line.drop insertPos
    if '\n' ∈ text then
      let pasted := text.splitOn '\n'
      let lastIdx := pasted.length - 1
      let firstSeg := pasted.getD 0 []
      let lastSeg := pasted.getD lastIdx []
      let midSegs := (pasted.drop 1).dropLast
      some { b with
        lines := b.lines.take b.cursorRow ++
          (before ++ firstSeg) :: (midSegs ++ [lastSeg ++ after]) ++
          b.lines.drop (b.cursorRow + 1),
        cursorRow := b.cursorRow + lastIdx,
        cursorCol := lastSeg.length - 1 }
    else
      some { b with
        lines := b.lines.set b.cursorRow (before ++ text ++ after),
        cursorCol := insertPos + (text.length - 1) }

/-- `TextBuffer::paste_after_cursor`: character-wise paste at
`min(cursor_col + 1, grapheme_count)`. -/
def pasteAfterCursor (b : TextBuffer) (text : List Char) : Option TextBuffer :=
  match b.lines.get? b.cursorRow with
  | none => none
  | some line => b.pasteCharwise text (min (b.cursorCol + 1) line.length)

/-- `TextBuffer::paste_before_cursor`: character-wise paste at
`min(cursor_col, grapheme_count)`. -/
def pasteBeforeCursor (b : TextBuffer) (text : List Char) : Option TextBuffer :=
  match b.lines.get? b.cursorRow with
  | none => none
  | some line => b.pasteCharwise text (min b.cursorCol line.length)

/-- First index of `hay` at which `needle` occurs as a contiguous
sublist: Rust `str::find` at the grapheme level. -/
def findSub (hay needle : List Char) : Option Nat :=
  match hay with
  | [] => if needle.isPrefixOf ([] : List Char) then some 0 else none
  | c :: rest =>
      if needle.isPrefixOf (c :: rest) then some 0
      else (findSub rest needle).map (· + 1)

/-- `TextBuffer::find_in_line_forward`: first occurrence of the
lowercased query in `line` at or after grapheme index `fromCol`;
`none` when `fromCol` is not strictly inside the line. -/
def findInLineForward (line : List Char) (fromCol : Nat) (queryLower : List Char) :
    Option Nat :=
  if line.length ≤ fromCol then none
  else
    match findSub ((line.drop fromCol).map Char.toLower) queryLower with
    | some i => some (fromCol + i)
    | none => none

/-- The body of the `for offset in 1..total_lines` wrap-around loop of
`TextBuffer::find_next`: try row `(start_row + offset) % total_lines`
for each listed offset in order. -/
def findRowsGo (lines : List Line) (qL : List Char) (startRow total : Nat) :
    List Nat → Option (Nat × Nat)
  | [] => none
  | offset :: rest =>
    let row := (startRow + offset) % total
    match findInLineForward (lines.getD row []) 0 qL with
    | some col => some (row, col)
    | none => findRowsGo lines qL startRow total rest

/-- The `for offset in 1..total_lines` loop of `TextBuffer::find_next`:
offsets `1, 2, …, total_lines - 1`. -/
def findRowsFrom (lines : List Line) (qL : List Char) (startRow total : Nat) :
    Option (Nat × Nat) :=
  findRowsGo lines qL startRow total (List.range' 1 (total - 1))

/-- `TextBuffer::find_next`: case-insensitive forward search starting at
`(start_row, start_col + 1)`, wrapping around the document, and finally
re-checking the start line up to `start_col`.  The source indexes
`self.lines[start_row]` unchecked; we use the empty-line default, which
agrees with the source on every in-range `start_row`. -/
def findNext (b : TextBuffer) (query : List Char) (startRow startCol : Nat) :
    Option (Nat × Nat) :=
  if query = [] ∨ b.lines = [] then none
  else
    let queryLower := query.map Char.toLower
    let totalLines := b.lines.length
    match findInLineForward (b.lines.getD startRow []) (startCol + 1) queryLower with
    | some col => some (startRow, col)
    | none =>
      match findRowsFrom b.lines queryLower startRow totalLines with
      | some rc => some rc
      | none =>
        match findInLineForward (b.lines.getD startRow []) 0 queryLower with
        | some col => if col ≤ startCol then some (startRow, col) else none
        | none => none

end TextBuffer

/-- Shorthand for writing concrete lines/documents as character lists. -/
def chars (s : String) : List Char := s.data

/-- One `save_undo_snapshot()` followed by one edit (`insert_char('a')`),
iterated: the cycle of the undo-cap scenario. -/
def editCycles : Nat → TextBuffer → Option TextBuffer
  | 0, b => some b
  | n + 1, b =>
    match (b.saveUndoSnapshot).insertChar 'a' with
    | some b2 => editCycles n b2
    | none => none

/-- Run `undo()` `n` times, collecting each call's boolean result. -/
def undoRun : Nat → TextBuffer → List Bool × TextBuffer
  | 0, b => ([], b)
  | n + 1, b =>
    let r := b.undo
    let rest := undoRun n r.2
    (r.1 :: rest.1, rest.2)

/-- Model of the unicode-width crate's display width of a grapheme
cluster: CJK and other East-Asian-wide ranges occupy two columns,
combining marks and zero-width code points none, everything else one.
The development only evaluates it on ASCII and CJK-ideograph
characters, where it agrees with the crate. -/
def charWidth (c : Char) : Nat :=
  if (0x300 ≤ c.toNat ∧ c.toNat ≤ 0x36F) ∨ (0x200B ≤ c.toNat ∧ c.toNat ≤ 0x200F) then 0
  else if (0x1100 ≤ c.toNat ∧ c.toNat ≤ 0x115F) ∨
      (0x2E80 ≤ c.toNat ∧ c.toNat ≤ 0x303E) ∨
      (0x3041 ≤ c.toNat ∧ c.toNat ≤ 0x33FF) ∨
      (0x3400 ≤ c.toNat ∧ c.toNat ≤ 0x4DBF) ∨
      (0x4E00 ≤ c.toNat ∧ c.toNat ≤ 0x9FFF) ∨
      (0xA000 ≤ c.toNat ∧ c.toNat ≤ 0xA4CF) ∨
      (0xAC00 ≤ c.toNat ∧ c.toNat ≤ 0xD7A3) ∨
      (0xF900 ≤ c.toNat ∧ c.toNat ≤ 0xFAFF) ∨
      (0xFE30 ≤ c.toNat ∧ c.toNat ≤ 0xFE4F) ∨
      (0xFF00 ≤ c.toNat ∧ c.toNat ≤ 0xFF60) ∨
      (0xFFE0 ≤ c.toNat ∧ c.toNat ≤ 0xFFE6) then 2
  else 1

namespace WrapCalc

/-- The grapheme-packing walk of `display_rows_for_line` (wrap_calc.rs):
zero-width graphemes consume no column; a grapheme whose width would
exceed `w` starts a new row at its own width. -/
def wrapGo (w : Nat) : List Char → Nat → Nat → Nat
  | [], _, rows => rows
  | g :: rest, col, rows =>
    let gw := charWidth g
    if gw = 0 then wrapGo w rest col rows
    else if w < col + gw then wrapGo w rest gw (rows + 1)
    else wrapGo w rest (col + gw) rows

/-- `display_rows_for_line` (wrap_calc.rs): number of display rows a
logical line occupies at `width`; width `0` means no wrapping. -/
def display_rows_for_line (line : List Char) (width : Nat) : Nat :=
  if width = 0 then 1 else wrapGo width line 0 1

end WrapCalc

namespace TextBuffer

/-- Modelled from the spec: `TextBuffer::display_col_at` is called from
visual_mode.rs and the repository's CJK tests but its definition is not
under src/.  Per §4.3 of the spec an endpoint's display column is
WrapCalc-consistent: the sum of the display widths of the graphemes
before it on its line (the repository's cjk_edge_cases tests pin the
same semantics, e.g. `display_col_at(0,3) = 6` on `"你好世界"`). -/
def displayColAt (b : TextBuffer) (row col : Nat) : Nat :=
  (((b.lines.getD row []).take col).map charWidth).sum

/-- Modelled from the spec: `TextBuffer::grapheme_display_width` is
called from visual_mode.rs but its definition is not under src/.  Per
§4.3 it is the display width of the grapheme the endpoint sits on; a
position past the end of its line counts as a single-column virtual
cell, matching WrapCalc's virtual trailing entries. -/
def graphemeDisplayWidth (b : TextBuffer) (row col : Nat) : Nat :=
  match (b.lines.getD row []).get? col with
  | some g => charWidth g
  | none => 1

/-- Walk of `grapheme_at_display_col`, tracking the current grapheme
index and its starting display column. -/
def graphemeAtGo (target : Nat) : List Char → Nat → Nat → Nat
  | [], i, _ => i
  | g :: rest, i, col =>
    if target < col + charWidth g then i
    else graphemeAtGo target rest (i + 1) (col + charWidth g)

/-- Modelled from the spec: `TextBuffer::grapheme_at_display_col` is
called from visual_mode.rs and the event dispatcher but its definition
is not under src/.  It maps a display column back to the index of the
grapheme covering it, snapping a column that falls inside a wide
grapheme to that grapheme's index (pinned by the cjk_edge_cases tests:
columns 2 and 3 of `"你好世界"` both map to grapheme 1). -/
def graphemeAtDisplayCol (b : TextBuffer) (row target : Nat) : Nat :=
  graphemeAtGo target (b.lines.getD row []) 0 0

end TextBuffer

/-- `VisualType` (visual_mode.rs). -/
inductive VisualType
  | Character
  | Line
  | Block
  deriving Repr, DecidableEq

/-- `VisualMode` (visual_mode.rs): selection kind plus the fixed anchor
`(row, col)` where the selection started. -/
structure VisualMode where
  visualType : VisualType
  anchor : Nat × Nat
  deriving Repr, DecidableEq

/-- `RenderSelection` (visual_mode.rs).  In `BlockRegion` the column
bounds are inclusive display columns, not grapheme indices. -/
inductive RenderSelection
  | CharacterRange (start stop : Nat × Nat)
  | LineRange (startRow endRow : Nat)
  | BlockRegion (topRow bottomRow leftCol rightCol : Nat)
  deriving Repr, DecidableEq

namespace VisualMode

/-- Rust lexicographic `<=` on `(usize, usize)` pairs. -/
def pairLe (a b : Nat × Nat) : Bool :=
  a.1 < b.1 || (a.1 = b.1 && a.2 ≤ b.2)

/-- `VisualMode::normalize_range`: order anchor and cursor
lexicographically. -/
def normalizeRange (anchor cursor : Nat × Nat) : (Nat × Nat) × (Nat × Nat) :=
  if pairLe anchor cursor then (anchor, cursor) else (cursor, anchor)

/-- `VisualMode::block_display_range`: inclusive display-column bounds
of a block selection; each endpoint contributes its full display span
`[start, start + width - 1]`, and the bounds are the min/max over both
endpoints.  (With a zero-width endpoint the source's
`usize` subtraction would underflow-panic; `graphemeDisplayWidth` is
always positive on the inputs of this development and `Nat`
subtraction truncates.) -/
def blockDisplayRange (buffer : TextBuffer) (anchor cursor : Nat × Nat) : Nat × Nat :=
  let anchorStart := buffer.displayColAt anchor.1 anchor.2
  let anchorWidth := buffer.graphemeDisplayWidth anchor.1 anchor.2
  let anchorEnd := anchorStart + anchorWidth - 1
  let cursorStart := buffer.displayColAt cursor.1 cursor.2
  let cursorWidth := buffer.graphemeDisplayWidth cursor.1 cursor.2
  let cursorEnd := cursorStart + cursorWidth - 1
  (min anchorStart cursorStart, max anchorEnd cursorEnd)

/-- `VisualMode::render_data`: selection geometry for display. -/
def renderData (v : VisualMode) (buffer : TextBuffer) (cursor : Nat × Nat) :
    RenderSelection :=
  match v.visualType with
  | .Character =>
      let p := normalizeRange v.anchor cursor
      .CharacterRange p.1 p.2
  | .Line => .LineRange (min v.anchor.1 cursor.1) (max v.anchor.1 cursor.1)
  | .Block =>
      let lr := blockDisplayRange buffer v.anchor cursor
      .BlockRegion (min v.anchor.1 cursor.1) (max v.anchor.1 cursor.1) lr.1 lr.2

end VisualMode

namespace Comment

/-- Rust `str::trim_start` at the grapheme level. -/
def trimStart (l : List Char) : List Char :=
  l.dropWhile fun c => c.isWhitespace

/-- Rust `str::trim_end` at the grapheme level. -/
def trimEnd (l : List Char) : List Char :=
  (l.reverse.dropWhile fun c => c.isWhitespace).reverse

/-- Rust `str::trim` at the grapheme level. -/
def trim (l : List Char) : List Char := trimEnd (trimStart l)

/-- `is_commented` (comment.rs): the trimmed line starts with `<!--`
and ends with `-->`. -/
def is_commented (line : List Char) : Bool :=
  (chars "<!--").isPrefixOf (trim line) && (chars "-->").isSuffixOf (trim line)

/-- `comment_line` (comment.rs): wrap the trimmed content in
`<!-- … -->`, preserving the leading indentation; a whitespace-only
line is returned unchanged. -/
def comment_line (line : List Char) : List Char :=
  let trimmed := trimStart line
  if trimmed = [] then line
  else
    let indent := line.takeWhile fun c => c.isWhitespace
    indent ++ chars "<!-- " ++ trimmed ++ chars " -->"

/-- `uncomment_line` (comment.rs): strip `<!--`/`-->` from the
start-trimmed line plus at most one interior space on each side,
preserving indentation; `none` when the line is not commented.  The
source slices `&trimmed[4..len - 3]`, which would panic on a degenerate
commented string shorter than 7 bytes (such as `<!-->`); such strings
never reach the slice in this development and the embedding truncates. -/
def uncomment_line (line : List Char) : Option (List Char) :=
  let trimmed := trimStart line
  let indent := line.takeWhile fun c => c.isWhitespace
  if (chars "<!--").isPrefixOf trimmed ∧ (chars "-->").isSuffixOf trimmed then
    let inner := (trimmed.drop 4).take (trimmed.length - 7)
    let inner := if inner.head? = some ' ' then inner.drop 1 else inner
    let inner := if inner.getLast? = some ' ' then inner.dropLast else inner
    some (indent ++ inner)
  else none

/-- `toggle_comment_line` (comment.rs): uncomment a commented line
(falling back to the line itself), comment an uncommented one. -/
def toggle_comment_line (line : List Char) : List Char :=
  if is_commented line then (uncomment_line line).getD line
  else comment_line line

end Comment

/-- `Motion` (vim_mode.rs). -/
inductive Motion
  | Line
  | WordForward
  | WordBackward
  | LineEnd
  | LineStart
  | FileEnd
  | FileStart
  deriving Repr, DecidableEq

/-- `VimAction` (vim_mode.rs). -/
inductive VimAction
  | None
  | MoveLeft
  | MoveRight
  | MoveUp
  | MoveDown
  | MoveWordForward
  | MoveWordBackward
  | MoveLineStart
  | MoveLineEnd
  | MoveFileStart
  | MoveFileEnd
  | InsertMode
  | InsertModeAppend
  | InsertModeLineEnd
  | InsertModeLineStart
  | InsertLineBelow
  | InsertLineAbove
  | DeleteChar
  | DeleteLine
  | Backspace
  | InsertChar (c : Char)
  | InsertTab
  | Indent
  | Dedent
  | InsertNewline
  | EnterVisualMode
  | ExitToNormal
  | Undo
  | Redo
  | LeaderKey
  | LeaderList
  | LeaderNew
  | LeaderProcess
  | ToggleHints
  | InsertCheckbox
  | ToggleCheckbox
  | CycleTheme
  | Search
  | SearchNext
  | SearchPrev
  | ClearSearch
  | ExternalEditor
  | Quit
  | Delete (m : Motion)
  | Yank (m : Motion)
  | VisualDelete
  | VisualYank
  | PasteAfter
  | PasteBefore
  | ReloadBuffer
  deriving Repr, DecidableEq

/-- `LeaderState` (vim_mode.rs). -/
inductive LeaderState
  | Inactive
  | AwaitingFirst
  | AwaitingSecond (first : Char)
  deriving Repr, DecidableEq

/-- `OperatorPending` (vim_mode.rs). -/
inductive OperatorPending
  | None
  | Delete
  | Yank
  deriving Repr, DecidableEq

/-- The crossterm `KeyCode` constructors the engine dispatches on. -/
inductive KeyCode
  | Char (c : Char)
  | Left
  | Right
  | Up
  | Down
  | Home
  | End
  | Esc
  | Backspace
  | Delete
  | Enter
  | Tab
  | BackTab
  | Null
  deriving Repr, DecidableEq

/-- The crossterm `KeyModifiers` bits the engine inspects. -/
structure KeyModifiers where
  control : Bool
  shift : Bool
  alt : Bool
  deriving Repr, DecidableEq

/-- `KeyModifiers::contains(KeyModifiers::CONTROL)`. -/
def KeyModifiers.containsControl (m : KeyModifiers) : Bool := m.control

/-- `KeyModifiers::contains(KeyModifiers::NONE)`: bitflags `contains`
of the empty flag set holds for every value. -/
def KeyModifiers.containsNone (_ : KeyModifiers) : Bool := true

/-- A crossterm `KeyEvent`: key code plus modifier set. -/
structure KeyEvent where
  code : KeyCode
  modifiers : KeyModifiers
  deriving Repr, DecidableEq

/-- `KeyboardConfig` (types/config.rs): the remappable binding table. -/
structure KeyboardConfig where
  move_left : String
  move_down : String
  move_up : String
  move_right : String
  word_forward : String
  word_backward : String
  line_start : String
  line_end : String
  file_start : String
  file_end : String
  insert : String
  insert_append : String
  insert_line_start : String
  insert_line_end : String
  insert_line_below : String
  insert_line_above : String
  delete_char : String
  delete_line : String
  undo : String
  redo : String
  yank : String
  paste_after : String
  paste_before : String
  visual_mode : String
  search : String
  search_next : String
  search_prev : String
  cycle_theme : String
  leader_process : String
  leader_list : String
  leader_new : String
  leader_quit : String
  deriving Repr, DecidableEq

/-- `KeyboardConfig::default()` (types/config.rs `default_*`). -/
def KeyboardConfig.default : KeyboardConfig where
  move_left := "h"
  move_down := "j"
  move_up := "k"
  move_right := "l"
  word_forward := "w"
  word_backward := "b"
  line_start := "0"
  line_end := "$"
  file_start := "g"
  file_end := "G"
  insert := "i"
  insert_append := "a"
  insert_line_start := "I"
  insert_line_end := "A"
  insert_line_below := "o"
  insert_line_above := "O"
  delete_char := "x"
  delete_line := "d"
  undo := "u"
  redo := "ctrl+r"
  yank := "y"
  paste_after := "p"
  paste_before := "P"
  visual_mode := "v"
  search := "/"
  search_next := "n"
  search_prev := "N"
  cycle_theme := "T"
  leader_process := "s"
  leader_list := "l"
  leader_new := "nn"
  leader_quit := "q"

/-- `AppMode` (types/mode.rs), restricted to the constructors
`VimMode::handle_key` dispatches on. -/
inductive AppMode
  | Normal
  | Insert
  | Visual (vt : VisualType)
  | Processing
  | Search
  | ConfirmDelete
  deriving Repr, DecidableEq

/-- `VimMode` (vim_mode.rs): leader and operator sub-state plus the
binding table. -/
structure VimMode where
  leaderState : LeaderState
  operatorState : OperatorPending
  keys : KeyboardConfig
  deriving Repr, DecidableEq

namespace VimMode

/-- `VimMode::new`. -/
def new : VimMode :=
  { leaderState := .Inactive, operatorState := .None, keys := KeyboardConfig.default }

/-- `VimMode::key_matches`: `c.to_string() == binding`. -/
def keyMatches (c : Char) (binding : String) : Bool :=
  String.mk [c] = binding

/-- `VimMode::key_event_matches`: a `ctrl+<char>` binding requires the
control modifier and the single named character; otherwise plain
character comparison.  (The bindings of this development are single
ASCII characters, where Rust's byte-length check `ch_str.len() == 1`
coincides with the single-character match.) -/
def keyEventMatches (key : KeyEvent) (binding : String) : Bool :=
  if binding.startsWith "ctrl+" then
    match (binding.drop 5).data with
    | [c] =>
        (match key.code with
         | .Char k => decide (k = c)
         | _ => false) && key.modifiers.containsControl
    | _ => false
  else
    match key.code with
    | .Char c => keyMatches c binding
    | _ => false

/-- `VimMode::resolve_motion` (vim_mode.rs). -/
def resolveMotion (vm : VimMode) (key : KeyEvent) : Option Motion :=
  match key.code with
  | .Char c =>
      if keyMatches c vm.keys.delete_line then some .Line
      else if keyMatches c vm.keys.yank then some .Line
      else if keyMatches c vm.keys.word_forward then some .WordForward
      else if keyMatches c vm.keys.word_backward then some .WordBackward
      else if keyMatches c vm.keys.line_end then some .LineEnd
      else if keyMatches c vm.keys.line_start then some .LineStart
      else if keyMatches c vm.keys.file_end then some .FileEnd
      else if keyMatches c vm.keys.file_start then some .FileStart
      else none
  | _ => none

/-- The `KeyCode::Char(c)` arms of Normal mode's main `match`, in
source order (the guards are checked top-down). -/
def normalCharDispatch (vm : VimMode) (c : Char) (mods : KeyModifiers) :
    VimAction × VimMode :=
  if c = ' ' then (.LeaderKey, { vm with leaderState := .AwaitingFirst })
  else if keyMatches c vm.keys.move_left then (.MoveLeft, vm)
  else if keyMatches c vm.keys.move_right then (.MoveRight, vm)
  else if keyMatches c vm.keys.move_up then (.MoveUp, vm)
  else if keyMatches c vm.keys.move_down then (.MoveDown, vm)
  else if keyMatches c vm.keys.word_forward then (.MoveWordForward, vm)
  else if keyMatches c vm.keys.word_backward then (.MoveWordBackward, vm)
  else if keyMatches c vm.keys.line_start then (.MoveLineStart, vm)
  else if keyMatches c vm.keys.line_end then (.MoveLineEnd, vm)
  else if keyMatches c vm.keys.file_end then (.MoveFileEnd, vm)
  else if keyMatches c vm.keys.file_start && !mods.containsControl then
    (.MoveFileStart, vm)
  else if keyMatches c vm.keys.insert then (.InsertMode, vm)
  else if keyMatches c vm.keys.insert_append then (.InsertModeAppend, vm)
  else if keyMatches c vm.keys.insert_line_end then (.InsertModeLineEnd, vm)
  else if keyMatches c vm.keys.insert_line_start then (.InsertModeLineStart, vm)
  else if keyMatches c vm.keys.insert_line_below then (.InsertLineBelow, vm)
  else if keyMatches c vm.keys.insert_line_above then (.InsertLineAbove, vm)
  else if keyMatches c vm.keys.delete_char then (.DeleteChar, vm)
  else if keyMatches c vm.keys.delete_line && mods.containsNone then
    (.None, { vm with operatorState := .Delete })
  else if keyMatches c vm.keys.yank then
    (.None, { vm with operatorState := .Yank })
  else if keyMatches c vm.keys.paste_after then (.PasteAfter, vm)
  else if keyMatches c vm.keys.paste_before then (.PasteBefore, vm)
  else if keyMatches c vm.keys.undo then (.Undo, vm)
  else if keyEventMatches ⟨.Char c, mods⟩ vm.keys.redo then (.Redo, vm)
  else if keyMatches c vm.keys.visual_mode then (.EnterVisualMode, vm)
  else if keyMatches c vm.keys.search then (.Search, vm)
  else if c = 'f' then (.Search, vm)
  else if keyMatches c vm.keys.search_next then (.SearchNext, vm)
  else if keyMatches c vm.keys.search_prev then (.SearchPrev, vm)
  else if keyMatches c vm.keys.cycle_theme then (.CycleTheme, vm)
  else if c = 'l' && mods.containsControl then (.ReloadBuffer, vm)
  else if c = 'g' && mods.containsControl then (.ExternalEditor, vm)
  else if c = 'q' && mods.containsControl then (.Quit, vm)
  else if c = 'c' && mods.containsControl then (.Quit, vm)
  else if c = '>' then (.Indent, vm)
  else if c = '<' then (.Dedent, vm)
  else (.None, vm)

/-- `VimMode::handle_normal_mode`: leader sub-machine, then pending
operator resolution, then the main dispatch table. -/
def handleNormalMode (vm : VimMode) (key : KeyEvent) : VimAction × VimMode :=
  match vm.leaderState with
  | .AwaitingSecond first =>
      let vm := { vm with leaderState := .Inactive }
      match first, key.code with
      | 'n', .Char 'n' => (.LeaderNew, vm)
      | 'm', .Char 'c' => (.InsertCheckbox, vm)
      | _, _ => (.None, vm)
  | .AwaitingFirst =>
      match key.code with
      | .Char c =>
          if keyMatches c vm.keys.leader_process then
            (.LeaderProcess, { vm with leaderState := .Inactive })
          else if keyMatches c vm.keys.leader_list then
            (.LeaderList, { vm with leaderState := .Inactive })
          else if keyMatches c vm.keys.leader_quit then
            (.Quit, { vm with leaderState := .Inactive })
          else if c = 'd' then (.ToggleCheckbox, { vm with leaderState := .Inactive })
          else if c = 'h' then (.ToggleHints, { vm with leaderState := .Inactive })
          else if c = 'n' then (.None, { vm with leaderState := .AwaitingSecond 'n' })
          else if c = 'm' then (.None, { vm with leaderState := .AwaitingSecond 'm' })
          else (.None, { vm with leaderState := .Inactive })
      | _ => (.None, { vm with leaderState := .Inactive })
  | .Inactive =>
      if vm.operatorState ≠ .None then
        let op := vm.operatorState
        let vm := { vm with operatorState := .None }
        match resolveMotion vm key with
        | some motion =>
            match op with
            | .Delete => (.Delete motion, vm)
            | .Yank => (.Yank motion, vm)
            | .None => (.None, vm)  -- unreachable in the source
        | none => (.None, vm)
      else
        match key.code with
        | .Char c => normalCharDispatch vm c key.modifiers
        | .Left => (.MoveLeft, vm)
        | .Right => (.MoveRight, vm)
        | .Up => (.MoveUp, vm)
        | .Down => (.MoveDown, vm)
        | .Home => (.MoveLineStart, vm)
        | .End => (.MoveLineEnd, vm)
        | .Esc => (.ExitToNormal, vm)
        | _ => (.None, vm)

/-- `VimMode::handle_insert_mode`. -/
def handleInsertMode (vm : VimMode) (key : KeyEvent) : VimAction × VimMode :=
  match key.code with
  | .Esc => (.ExitToNormal, vm)
  | .Backspace => (.Backspace, vm)
  | .Delete => (.DeleteChar, vm)
  | .Enter => (.InsertNewline, vm)
  | .Left => (.MoveLeft, vm)
  | .Right => (.MoveRight, vm)
  | .Up => (.MoveUp, vm)
  | .Down => (.MoveDown, vm)
  | .Home => (.MoveLineStart, vm)
  | .End => (.MoveLineEnd, vm)
  | .Tab => (.InsertTab, vm)
  | .BackTab => (.Dedent, vm)
  | .Char c =>
      if key.modifiers.containsControl then
        if c = 'c' then (.ExitToNormal, vm)
        else if c = 'g' then (.ExternalEditor, vm)
        else (.None, vm)
      else (.InsertChar c, vm)
  | _ => (.None, vm)

/-- `VimMode::handle_visual_mode`. -/
def handleVisualMode (vm : VimMode) (key : KeyEvent) : VimAction × VimMode :=
  match key.code with
  | .Esc => (.ExitToNormal, vm)
  | .Left => (.MoveLeft, vm)
  | .Right => (.MoveRight, vm)
  | .Up => (.MoveUp, vm)
  | .Down => (.MoveDown, vm)
  | .Char c =>
      if keyMatches c vm.keys.move_left then (.MoveLeft, vm)
      else if keyMatches c vm.keys.move_right then (.MoveRight, vm)
      else if keyMatches c vm.keys.move_up then (.MoveUp, vm)
      else if keyMatches c vm.keys.move_down then (.MoveDown, vm)
      else if keyMatches c vm.keys.word_forward then (.MoveWordForward, vm)
      else if keyMatches c vm.keys.word_backward then (.MoveWordBackward, vm)
      else if keyMatches c vm.keys.line_start then (.MoveLineStart, vm)
      else if keyMatches c vm.keys.line_end then (.MoveLineEnd, vm)
      else if keyMatches c vm.keys.file_start then (.MoveFileStart, vm)
      else if keyMatches c vm.keys.file_end then (.MoveFileEnd, vm)
      else if keyMatches c vm.keys.delete_line then (.VisualDelete, vm)
      else if keyMatches c vm.keys.yank then (.VisualYank, vm)
      else if c = '>' then (.Indent, vm)
      else if c = '<' then (.Dedent, vm)
      else (.None, vm)
  | _ => (.None, vm)

/-- `VimMode::handle_search_mode`. -/
def handleSearchMode (vm : VimMode) (key : KeyEvent) : VimAction × VimMode :=
  match key.code with
  | .Esc => (.ExitToNormal, vm)
  | .Enter => (.ExitToNormal, vm)
  | .Backspace => (.Backspace, vm)
  | .Char c => (.InsertChar c, vm)
  | _ => (.None, vm)

/-- `VimMode::handle_key`: per-mode dispatch; `Processing` and
`ConfirmDelete` produce `VimAction::None` without touching the
sub-state machines. -/
def handleKey (vm : VimMode) (key : KeyEvent) (mode : AppMode) : VimAction × VimMode :=
  match mode with
  | .Normal => handleNormalMode vm key
  | .Insert => handleInsertMode vm key
  | .Visual _ => handleVisualMode vm key
  | .Search => handleSearchMode vm key
  | .Processing => (.None, vm)
  | .ConfirmDelete => (.None, vm)

end VimMode

/-! ## Theorems -/

/-- The packing walk never decreases the row count. -/
theorem WrapCalc.wrapGo_ge (w : Nat) (l : List Char) (col rows : Nat) :
    rows ≤ WrapCalc.wrapGo w l col rows := by
  induction l generalizing col rows with
  | nil => simp [WrapCalc.wrapGo]
  | cons g rest ih =>
    simp only [WrapCalc.wrapGo]
    split
    · exact ih _ _
    · split
      · exact le_trans (Nat.le_succ rows) (ih _ _)
      · exact ih _ _

/-- C7: `display_rows_for_line` returns at least one row for every line
(the empty line included), exactly one row whenever the width is `0`
(no wrapping), and never splits a grapheme across rows: packing
`"ab你"` at width 3 pushes the double-width `你` whole onto a second
row, while width 4 fits the line on one row. -/
theorem C7_display_rows_for_line :
    (∀ (line : List Char) (width : Nat), 1 ≤ WrapCalc.display_rows_for_line line width) ∧
    (∀ line : List Char, WrapCalc.display_rows_for_line line 0 = 1) ∧
    WrapCalc.display_rows_for_line (chars "ab你") 3 = 2 ∧
    WrapCalc.display_rows_for_line (chars "ab你") 4 = 1 := by
  refine ⟨?_, ?_, by decide, by decide⟩
  · intro line width
    unfold WrapCalc.display_rows_for_line
    split
    · exact le_refl 1
    · exact WrapCalc.wrapGo_ge _ _ _ _
  · intro line
    simp [WrapCalc.display_rows_for_line]

/-- C2: the spec's no-panic contract fails on `delete_range` and
`extract_range`: with `end_row` past the last line the source indexes
`self.lines[end_row]` unchecked and panics (modelled as `none`) instead
of degrading to a no-op or clamping. -/
theorem C2_range_ops_panic_on_out_of_range_row :
    (TextBuffer.fromString (chars "hello")).lineCount = 1 ∧
    TextBuffer.deleteRange (TextBuffer.fromString (chars "hello")) 0 0 5 0 = none ∧
    TextBuffer.extractRange (TextBuffer.fromString (chars "hello")) 0 0 5 0 = none := by
  refine ⟨by decide, by decide, by decide⟩

set_option maxRecDepth 20000 in
/-- C5: starting from an empty buffer, 60 cycles of
`save_undo_snapshot()` followed by an `insert_char('a')` edit leave
exactly `MAX_UNDO_LEVELS = 50` snapshots (the oldest ten evicted), so
50 consecutive `undo()` calls return `true` and the 51st returns
`false`. -/
theorem C5_undo_cap :
    (Kenotex.editCycles 60 TextBuffer.new).map (fun b => (Kenotex.undoRun 51 b).1) =
      some (List.replicate 50 true ++ [false]) ∧
    (Kenotex.editCycles 60 TextBuffer.new).map (fun b => b.undoStack.length) = some 50 := by
  refine ⟨by decide, by decide⟩

/-- C6: `find_next` is case-insensitive, wraps around the document,
and skips a match that starts exactly at the given position until the
wrap completes: in `"hello world hello"` the searches from `(0,0)`
find `"world"` at `(0,6)` and `"hello"` at `(0,12)` (not `(0,0)`); a
search from the last row wraps to `(0,0)`; and an uppercase document
matches a lowercase query. -/
theorem C6_find_next :
    TextBuffer.findNext (TextBuffer.fromString (chars "hello world hello"))
      (chars "world") 0 0 = some (0, 6) ∧
    TextBuffer.findNext (TextBuffer.fromString (chars "hello world hello"))
      (chars "hello") 0 0 = some (0, 12) ∧
    TextBuffer.findNext (TextBuffer.fromString (chars "hello\nworld\nfoo"))
      (chars "hello") 2 0 = some (0, 0) ∧
    TextBuffer.findNext (TextBuffer.fromString (chars "Hello World HELLO"))
      (chars "hello") 0 0 = some (0, 12) := by
  refine ⟨by decide, by decide, by decide, by decide⟩

/-- C10: while the app mode is `Processing` or `ConfirmDelete`,
`handle_key` returns `VimAction::None` for every key event and leaves
the leader and operator sub-state machines untouched. -/
theorem C10_processing_confirm_inert :
    ∀ (vm : VimMode) (key : KeyEvent),
      VimMode.handleKey vm key .Processing = (.None, vm) ∧
      VimMode.handleKey vm key .ConfirmDelete = (.None, vm) ∧
      (VimMode.handleKey vm key .Processing).2.leaderState = vm.leaderState ∧
      (VimMode.handleKey vm key .Processing).2.operatorState = vm.operatorState ∧
      (VimMode.handleKey vm key .ConfirmDelete).2.leaderState = vm.leaderState ∧
      (VimMode.handleKey vm key .ConfirmDelete).2.operatorState = vm.operatorState :=
  fun _ _ => ⟨rfl, rfl, rfl, rfl, rfl, rfl⟩

/-- C1: for buffer `"Hello\n你好world"`, a Block selection anchored at
`(0,2)` with the cursor on `好` — the grapheme of row 1 whose display
column is 2 — renders as a `BlockRegion` with display columns 2..3,
covering the full width of `好`; and in general the block bounds are
the min/max over the full display spans of the two endpoints, so each
endpoint's span lies inside the block. -/
theorem C1_block_selection_full_glyph :
    ((TextBuffer.fromString (chars "Hello\n你好world")).displayColAt 1 1 = 2 ∧
     (TextBuffer.fromString (chars "Hello\n你好world")).graphemeAtDisplayCol 1 2 = 1 ∧
     (VisualMode.mk .Block (0, 2)).renderData
       (TextBuffer.fromString (chars "Hello\n你好world")) (1, 1) =
       .BlockRegion 0 1 2 3) ∧
    ∀ (b : TextBuffer) (anchor cursor : Nat × Nat),
      (VisualMode.mk .Block anchor).renderData b cursor =
        .BlockRegion (min anchor.1 cursor.1) (max anchor.1 cursor.1)
          (VisualMode.blockDisplayRange b anchor cursor).1
          (VisualMode.blockDisplayRange b anchor cursor).2 ∧
      (VisualMode.blockDisplayRange b anchor cursor).1 =
        min (b.displayColAt anchor.1 anchor.2) (b.displayColAt cursor.1 cursor.2) ∧
      (VisualMode.blockDisplayRange b anchor cursor).2 =
        max (b.displayColAt anchor.1 anchor.2 + b.graphemeDisplayWidth anchor.1 anchor.2 - 1)
          (b.displayColAt cursor.1 cursor.2 + b.graphemeDisplayWidth cursor.1 cursor.2 - 1) ∧
      (VisualMode.blockDisplayRange b anchor cursor).1 ≤ b.displayColAt anchor.1 anchor.2 ∧
      (VisualMode.blockDisplayRange b anchor cursor).1 ≤ b.displayColAt cursor.1 cursor.2 ∧
      b.displayColAt anchor.1 anchor.2 + b.graphemeDisplayWidth anchor.1 anchor.2 - 1 ≤
        (VisualMode.blockDisplayRange b anchor cursor).2 ∧
      b.displayColAt cursor.1 cursor.2 + b.graphemeDisplayWidth cursor.1 cursor.2 - 1 ≤
        (VisualMode.blockDisplayRange b anchor cursor).2 := by
  refine ⟨⟨by decide, by decide, by decide⟩, ?_⟩
  intro b anchor cursor
  refine ⟨rfl, rfl, rfl, ?_, ?_, ?_, ?_⟩ <;>
    simp only [VisualMode.blockDisplayRange]
  · exact Nat.min_le_left _ _
  · exact Nat.min_le_right _ _
  · exact Nat.le_max_left _ _
  · exact Nat.le_max_right _ _

/-- C4: `set_cursor` clamps every `(row, col)` — even values far past
the end of the document or line — to `row < line_count` and
`col ≤ grapheme_count(line[row])`. -/
theorem C4_set_cursor_clamps (b : TextBuffer) (row col : Nat)
    (h : 0 < b.lines.length) :
    (b.setCursor row col).cursorRow < (b.setCursor row col).lineCount ∧
    (b.setCursor row col).cursorCol ≤
      ((b.setCursor row col).lines.getD (b.setCursor row col).cursorRow []).length := by
  constructor
  · exact lt_of_le_of_lt (Nat.min_le_right row (b.lines.length - 1))
      (Nat.sub_lt h Nat.one_pos)
  · exact Nat.min_le_right col _

/-- Witness for C4 at a concrete buffer and out-of-range cursor. -/
theorem C4_set_cursor_clamps_witness :
    ((TextBuffer.fromString (chars "hi")).setCursor 99 99).cursorRow <
      ((TextBuffer.fromString (chars "hi")).setCursor 99 99).lineCount ∧
    ((TextBuffer.fromString (chars "hi")).setCursor 99 99).cursorCol ≤
      (((TextBuffer.fromString (chars "hi")).setCursor 99 99).lines.getD
        ((TextBuffer.fromString (chars "hi")).setCursor 99 99).cursorRow []).length :=
  C4_set_cursor_clamps (TextBuffer.fromString (chars "hi")) 99 99 (by decide)

/-- The ill-behaved pattern for the round trip: a carriage return
immediately followed by a line feed somewhere in the content. -/
def hasCrLf : List Char → Bool
  | [] => false
  | [_] => false
  | a :: b :: rest => (a = '\r' && b = '\n') || hasCrLf (b :: rest)

/-- `linesGo` never returns the empty list unless both the remaining
input and the accumulator are empty. -/
theorem linesGo_ne_nil (s cur : List Char) (h : s ≠ [] ∨ cur ≠ []) :
    TextBuffer.linesGo s cur ≠ [] := by
  induction s generalizing cur with
  | nil =>
    have hcur : cur ≠ [] := h.resolve_left (fun hs => hs rfl)
    simp [TextBuffer.linesGo, hcur]
  | cons c rest ih =>
    simp only [TextBuffer.linesGo]
    split
    · simp
    · exact ih (c :: cur) (Or.inr (by simp))

/-- Joining the segments of `linesGo` with `'\n'` recovers the input,
provided no `"\r\n"` occurs and the input does not end in `'\n'`. -/
theorem linesGo_join (s : List Char) :
    ∀ cur : List Char, hasCrLf s = false → s.getLast? ≠ some '\n' →
      (cur.head? = some '\r' → s.head? ≠ some '\n') →
      ((TextBuffer.linesGo s cur).intersperse ['\n']).flatten = cur.reverse ++ s := by
  induction s with
  | nil =>
    intro cur _ _ _
    simp only [TextBuffer.linesGo]
    split
    · simp [*]
    · simp
  | cons c rest ih =>
    intro cur h1 h2 h3
    simp only [TextBuffer.linesGo]
    by_cases hc : c = '\n'
    · subst hc
      rw [if_pos rfl]
      have hrest : rest ≠ [] := by
        intro hr
        exact h2 (by simp [hr])
      have hcr : cur.head? ≠ some '\r' := fun hh => h3 hh (by simp)
      have hstrip : TextBuffer.stripCr cur.reverse = cur.reverse := by
        unfold TextBuffer.stripCr
        rw [List.getLast?_reverse]
        simp [hcr]
      have h1' : hasCrLf rest = false := by
        cases rest with
        | nil => rfl
        | cons d t =>
          have : ¬ (('\n' : Char) = '\r' && (d = '\n') : Bool) = true := by simp
          simpa [hasCrLf, decide_eq_true_eq] using h1
      have h2' : rest.getLast? ≠ some '\n' := by
        cases rest with
        | nil => simp
        | cons d t => simpa [List.getLast?_cons_cons] using h2
      have htail := ih [] h1' h2' (by simp)
      have hne : TextBuffer.linesGo rest [] ≠ [] :=
        linesGo_ne_nil rest [] (Or.inl hrest)
      rw [hstrip]
      obtain ⟨a, L, hL⟩ : ∃ a L, TextBuffer.linesGo rest [] = a :: L := by
        cases hgo : TextBuffer.linesGo rest [] with
        | nil => exact absurd hgo hne
        | cons a L => exact ⟨a, L, rfl⟩
      rw [hL]
      rw [hL] at htail
      rw [List.intersperse_cons_cons]
      simp only [List.flatten_cons] at htail ⊢
      simp [htail]
    · rw [if_neg hc]
      have h1' : hasCrLf rest = false := by
        cases rest with
        | nil => rfl
        | cons d t =>
          simp only [hasCrLf, Bool.or_eq_false_iff] at h1
          exact h1.2
      have h2' : rest.getLast? ≠ some '\n' := by
        cases rest with
        | nil => simp
        | cons d t => simpa [List.getLast?_cons_cons] using h2
      have h3' : (c :: cur).head? = some '\r' → rest.head? ≠ some '\n' := by
        intro hh hd
        simp only [List.head?_cons, Option.some_inj] at hh
        cases rest with
        | nil => simp at hd
        | cons d t =>
          simp only [List.head?_cons, Option.some_inj] at hd
          subst hh; subst hd
          simp [hasCrLf] at h1
      have := ih (c :: cur) h1' h2' h3'
      rw [this]
      simp

/-- C3 counterexample: `"a\r\nb"` does not end in a line break, yet
`from_string`/`to_string` normalizes the `"\r\n"` to `"\n"`, so the
round trip is not the identity on it. -/
theorem C3_roundtrip_counterexample :
    (chars "a\r\nb").getLast? = some 'b' ∧
    TextBuffer.toString (TextBuffer.fromString (chars "a\r\nb")) = chars "a\nb" ∧
    TextBuffer.toString (TextBuffer.fromString (chars "a\r\nb")) ≠ chars "a\r\nb" := by
  refine ⟨by decide, by decide, by decide⟩

/-- C3 (amended): for every string that does not end in `'\n'` and
contains no `"\r\n"` pair, `from_string(s).to_string() == s`, and
`from_string` of the empty string yields a single empty line. -/
theorem C3_roundtrip (s : List Char) (h1 : hasCrLf s = false)
    (h2 : s.getLast? ≠ some '\n') :
    TextBuffer.toString (TextBuffer.fromString s) = s ∧
    (TextBuffer.fromString []).lines = [[]] := by
  refine ⟨?_, rfl⟩
  unfold TextBuffer.fromString TextBuffer.toString
  by_cases hs : s = []
  · subst hs; simp
  · simp only [hs, if_neg, TextBuffer.rustLines]
    simpa using linesGo_join s [] h1 h2 (by simp)

/-- Witness for C3 at `"hello\nworld"`. -/
theorem C3_roundtrip_witness :
    TextBuffer.toString (TextBuffer.fromString (chars "hello\nworld")) =
      chars "hello\nworld" ∧
    (TextBuffer.fromString []).lines = [[]] :=
  C3_roundtrip (chars "hello\nworld") (by decide) (by decide)

/-- `takeWhile` passes over a leading block that wholly satisfies the
predicate. -/
theorem takeWhile_append_all (p : Char → Bool) (l₁ l₂ : List Char)
    (h : ∀ a ∈ l₁, p a = true) :
    (l₁ ++ l₂).takeWhile p = l₁ ++ l₂.takeWhile p := by
  induction l₁ with
  | nil => simp
  | cons a l ih =>
    rw [List.cons_append, List.takeWhile_cons, if_pos (h a (List.mem_cons_self a l)),
      ih (fun b hb => h b (List.mem_cons_of_mem a hb)), List.cons_append]

/-- `dropWhile` removes a leading block that wholly satisfies the
predicate. -/
theorem dropWhile_append_all (p : Char → Bool) (l₁ l₂ : List Char)
    (h : ∀ a ∈ l₁, p a = true) :
    (l₁ ++ l₂).dropWhile p = l₂.dropWhile p := by
  induction l₁ with
  | nil => simp
  | cons a l ih =>
    rw [List.cons_append, List.dropWhile_cons, if_pos (h a (List.mem_cons_self a l))]
    exact ih (fun b hb => h b (List.mem_cons_of_mem a hb))

/-- Toggling a line of the shape `indent ++ "<!-- " ++ t ++ " -->"`
(whitespace `indent`) uncomments it back to `indent ++ t`. -/
theorem toggle_comment_line_of_commented (indent t : List Char)
    (hindent : ∀ a ∈ indent, a.isWhitespace = true) :
    Comment.toggle_comment_line
      (indent ++ ('<' :: '!' :: '-' :: '-' :: ' ' :: (t ++ [' ', '-', '-', '>']))) =
      indent ++ t := by
  set T2 : List Char := '<' :: '!' :: '-' :: '-' :: ' ' :: (t ++ [' ', '-', '-', '>'])
    with hT2
  have htrimStart : Comment.trimStart (indent ++ T2) = T2 := by
    unfold Comment.trimStart
    rw [dropWhile_append_all _ _ _ hindent, hT2, List.dropWhile_cons,
      if_neg (by decide)]
  have htakeWhile : (indent ++ T2).takeWhile (fun c => c.isWhitespace) = indent := by
    rw [takeWhile_append_all _ _ _ hindent, hT2, List.takeWhile_cons,
      if_neg (by decide), List.append_nil]
  have hT2concat : T2 = ('<' :: '!' :: '-' :: '-' :: ' ' :: (t ++ [' ', '-', '-'])) ++ ['>'] := by
    rw [hT2]
    simp
  have htrimEnd : Comment.trimEnd T2 = T2 := by
    unfold Comment.trimEnd
    rw [hT2concat]
    rw [List.reverse_append]
    rw [show (['>'] : List Char).reverse = ['>'] from rfl]
    rw [show (['>'] : List Char) ++ ('<' :: '!' :: '-' :: '-' :: ' ' ::
      (t ++ [' ', '-', '-'])).reverse = '>' :: ('<' :: '!' :: '-' :: '-' :: ' ' ::
      (t ++ [' ', '-', '-'])).reverse from rfl]
    rw [List.dropWhile_cons, if_neg (by decide)]
    rw [show ('>' : Char) :: ('<' :: '!' :: '-' :: '-' :: ' ' ::
      (t ++ [' ', '-', '-'])).reverse = (('<' :: '!' :: '-' :: '-' :: ' ' ::
      (t ++ [' ', '-', '-'])) ++ ['>']).reverse by simp]
    rw [List.reverse_reverse]
  have htrim : Comment.trim (indent ++ T2) = T2 := by
    unfold Comment.trim
    rw [htrimStart, htrimEnd]
  have hpref : (chars "<!--").isPrefixOf T2 = true := by
    refine List.isPrefixOf_iff_prefix.mpr ⟨' ' :: (t ++ [' ', '-', '-', '>']), rfl⟩
  have hsuffix : (chars "-->").isSuffixOf T2 = true := by
    refine List.isSuffixOf_iff_suffix.mpr
      ⟨'<' :: '!' :: '-' :: '-' :: ' ' :: (t ++ [' ']), ?_⟩
    rw [hT2]
    simp only [List.cons_append, List.append_assoc]
    rfl
  have hcomm : Comment.is_commented (indent ++ T2) = true := by
    unfold Comment.is_commented
    rw [htrim, hpref, hsuffix]
    rfl
  have hdrop4 : T2.drop 4 = ' ' :: (t ++ [' ', '-', '-', '>']) := by
    rw [hT2]
    rfl
  have hlen : T2.length - 7 = t.length + 2 := by
    rw [hT2]
    simp only [List.length_cons, List.length_append, List.length_nil]
    omega
  have honemore : t.length + 1 - t.length = 1 := by omega
  have htake : (' ' :: (t ++ [' ', '-', '-', '>'])).take (t.length + 2) =
      ' ' :: (t ++ [' ']) := by
    rw [List.take_succ_cons, List.take_append_eq_append_take,
      List.take_of_length_le (Nat.le_succ t.length), honemore]
    rfl
  have huncomm : Comment.uncomment_line (indent ++ T2) = some (indent ++ t) := by
    simp only [Comment.uncomment_line, htrimStart, htakeWhile, hdrop4, hlen, htake]
    simp [hpref, hsuffix, List.getLast?_concat]
  simp only [Comment.toggle_comment_line, hcomm, if_true, huncomm, Option.getD_some]

/-- C9: toggling the HTML comment twice is the identity on any line
whose trimmed content is non-empty, that carries no trailing
whitespace, and that is not already commented: the first toggle wraps
the trimmed content in `<!-- … -->` behind the original indentation and
the second strips exactly the added markers and padding spaces. -/
theorem C9_toggle_comment_involution (line : List Char)
    (h1 : Comment.trim line ≠ [])
    (_h2 : Comment.trimEnd line = line)
    (h3 : ¬((chars "<!--").isPrefixOf (Comment.trim line) = true ∧
            (chars "-->").isSuffixOf (Comment.trim line) = true)) :
    Comment.toggle_comment_line (Comment.toggle_comment_line line) = line := by
  have hindent : ∀ a ∈ line.takeWhile (fun c => c.isWhitespace), a.isWhitespace = true :=
    fun a ha => List.mem_takeWhile_imp ha
  have hline : line.takeWhile (fun c => c.isWhitespace) ++
      line.dropWhile (fun c => c.isWhitespace) = line :=
    List.takeWhile_append_dropWhile _ _
  have ht_ne : line.dropWhile (fun c => c.isWhitespace) ≠ [] := by
    intro h0
    apply h1
    unfold Comment.trim Comment.trimStart
    rw [h0]
    rfl
  have hcomm_false : Comment.is_commented line = false := by
    unfold Comment.is_commented
    cases hA : (chars "<!--").isPrefixOf (Comment.trim line) with
    | false => rfl
    | true =>
      cases hB : (chars "-->").isSuffixOf (Comment.trim line) with
      | false => rfl
      | true => exact absurd ⟨hA, hB⟩ h3
  have hfirst : Comment.toggle_comment_line line =
      line.takeWhile (fun c => c.isWhitespace) ++
        ('<' :: '!' :: '-' :: '-' :: ' ' ::
          (line.dropWhile (fun c => c.isWhitespace) ++ [' ', '-', '-', '>'])) := by
    unfold Comment.toggle_comment_line
    rw [hcomm_false]
    simp only [Bool.false_eq_true, if_false]
    unfold Comment.comment_line Comment.trimStart
    rw [if_neg ht_ne]
    simp only [List.append_assoc]
    rfl
  rw [hfirst, toggle_comment_line_of_commented _ _ hindent, hline]

/-- Witness for C9 at the indented line `"  hello"`. -/
theorem C9_toggle_comment_involution_witness :
    Comment.toggle_comment_line (Comment.toggle_comment_line (chars "  hello")) =
      chars "  hello" :=
  C9_toggle_comment_involution (chars "  hello") (by decide) (by decide) (by decide)

/-- The grapheme under the buffer's cursor: formalizes the claim's
phrase "the cursor sits on …". -/
def charAtCursor (b : TextBuffer) : Option Char :=
  (b.lines.getD b.cursorRow [])[b.cursorCol]?

/-- C8 counterexample: pasting the non-empty text `"a\n"` after the
cursor of `"AB"` at `(0,0)` yields lines `["Aa", "B"]` with the cursor
at `(1,0)` — the pre-existing grapheme `B`, which does not occur in the
pasted text — so the cursor does not sit on the last inserted grapheme
(`a` at `(0,1)`). -/
theorem C8_paste_counterexample :
    (((TextBuffer.fromString (chars "AB")).setCursor 0 0).pasteAfterCursor
        (chars "a\n")).map (fun b => (b.lines, b.cursorRow, b.cursorCol, charAtCursor b)) =
      some ([chars "Aa", chars "B"], 1, 0, some 'B') ∧
    chars "a\n" ≠ [] ∧
    ¬ 'B' ∈ chars "a\n" := by
  refine ⟨by decide, by decide, by decide⟩

/-- A list's last element, when it exists, is a member. -/
theorem mem_of_getLast?_eq (l : List Char) (a : Char) (h : l.getLast? = some a) :
    a ∈ l := by
  induction l with
  | nil => simp at h
  | cons x xs ih =>
    cases xs with
    | nil =>
      simp only [List.getLast?_singleton, Option.some_inj] at h
      simp [h]
    | cons y ys =>
      rw [List.getLast?_cons_cons] at h
      exact List.mem_cons_of_mem x (ih h)

/-- Splitting on `'\n'` never yields the empty segment list. -/
theorem splitOn_nl_ne_nil (l : List Char) : l.splitOn '\n' ≠ [] :=
  List.splitOnP_ne_nil _ l

/-- The `splitOnP` cons equation, specialized to splitting on `'\n'`. -/
theorem splitOn_nl_cons (c : Char) (rest : List Char) :
    (c :: rest).splitOn '\n' =
      if c = '\n' then [] :: rest.splitOn '\n'
      else (rest.splitOn '\n').modifyHead (List.cons c) := by
  show List.splitOnP (fun x => x == '\n') (c :: rest) = _
  rw [List.splitOnP_cons]
  by_cases hc : c = '\n'
  · rw [if_pos (by simp [hc]), if_pos hc]
    rfl
  · rw [if_neg (by simp [hc]), if_neg hc]
    rfl

/-- A text containing `'\n'` splits into at least two segments. -/
theorem two_le_length_splitOn (text : List Char) (h : '\n' ∈ text) :
    2 ≤ (text.splitOn '\n').length := by
  induction text with
  | nil => cases h
  | cons c rest ih =>
    rw [splitOn_nl_cons]
    by_cases hc : c = '\n'
    · rw [if_pos hc]
      simp only [List.length_cons]
      have := List.length_pos.mpr (splitOn_nl_ne_nil rest)
      omega
    · rw [if_neg hc, List.length_modifyHead]
      rcases List.mem_cons.mp h with h1 | h2
      · exact absurd h1.symm hc
      · exact ih h2

/-- A text ending in `'\n'` has an empty final split segment. -/
theorem lastSeg_empty_of_ends_nl (text : List Char) (h : text.getLast? = some '\n') :
    (text.splitOn '\n').getD ((text.splitOn '\n').length - 1) [] = [] := by
  induction text with
  | nil => simp at h
  | cons c rest ih =>
    cases rest with
    | nil =>
      have hc : c = '\n' := by simpa using h
      subst hc
      decide
    | cons d t =>
      have h' : (d :: t).getLast? = some '\n' := by
        rw [List.getLast?_cons_cons] at h
        exact h
      have ihh := ih h'
      have hPpos : 0 < ((d :: t).splitOn '\n').length :=
        List.length_pos.mpr (splitOn_nl_ne_nil _)
      rw [splitOn_nl_cons]
      by_cases hc : c = '\n'
      · rw [if_pos hc]
        simp only [List.length_cons, Nat.add_sub_cancel]
        obtain ⟨k, hk⟩ : ∃ k, ((d :: t).splitOn '\n').length = k + 1 :=
          ⟨((d :: t).splitOn '\n').length - 1, by omega⟩
        rw [List.getD_eq_getElem?_getD, hk, List.getElem?_cons_succ,
          ← List.getD_eq_getElem?_getD]
        have hkk : k = ((d :: t).splitOn '\n').length - 1 := by omega
        rw [hkk]
        exact ihh
      · rw [if_neg hc]
        have h2 : 2 ≤ ((d :: t).splitOn '\n').length :=
          two_le_length_splitOn _ (mem_of_getLast?_eq _ _ h')
        obtain ⟨x, xs, hx⟩ : ∃ x xs, (d :: t).splitOn '\n' = x :: xs := by
          cases hxx : (d :: t).splitOn '\n' with
          | nil => exact absurd hxx (splitOn_nl_ne_nil _)
          | cons x xs => exact ⟨x, xs, rfl⟩
        rw [hx, List.modifyHead_cons]
        rw [hx] at ihh h2
        simp only [List.length_cons, Nat.add_sub_cancel] at ihh ⊢
        obtain ⟨k, hk⟩ : ∃ k, xs.length = k + 1 :=
          ⟨xs.length - 1, by simp only [List.length_cons] at h2; omega⟩
        rw [List.getD_eq_getElem?_getD, hk, List.getElem?_cons_succ] at ihh ⊢
        exact ihh

/-- The last element of an intercalation ending in a non-empty segment
is that segment's last element. -/
theorem getLast?_intercalate_concat (s : List Char) (A : List (List Char))
    (ls : List Char) (h : ls ≠ []) :
    (List.intercalate s (A ++ [ls])).getLast? = ls.getLast? := by
  induction A with
  | nil =>
    show (List.intercalate s [ls]).getLast? = ls.getLast?
    rw [show List.intercalate s [ls] = ls by simp [List.intercalate]]
  | cons a A' ih =>
    obtain ⟨b, t, hbt⟩ : ∃ b t, A' ++ [ls] = b :: t := by
      cases hx : A' ++ [ls] with
      | nil => simp at hx
      | cons b t => exact ⟨b, t, rfl⟩
    have ihh : (((A' ++ [ls]).intersperse s).flatten).getLast? = ls.getLast? := ih
    rw [hbt] at ihh
    show (((a :: (A' ++ [ls])).intersperse s).flatten).getLast? = ls.getLast?
    rw [hbt, List.intersperse_cons_cons, List.flatten_cons, List.flatten_cons]
    rw [List.getLast?_append, List.getLast?_append, ihh]
    obtain ⟨x, hx⟩ : ∃ x, ls.getLast? = some x := by
      cases hls : ls.getLast? with
      | none => exact absurd (List.getLast?_eq_none_iff.mp hls) h
      | some x => exact ⟨x, rfl⟩
    rw [hx]
    rfl

/-- When the final split segment is non-empty, the text's last grapheme
is that segment's last grapheme. -/
theorem getLast?_eq_lastSeg (text : List Char)
    (h : (text.splitOn '\n').getD ((text.splitOn '\n').length - 1) [] ≠ []) :
    text.getLast? =
      ((text.splitOn '\n').getD ((text.splitOn '\n').length - 1) []).getLast? := by
  have hne : text.splitOn '\n' ≠ [] := splitOn_nl_ne_nil text
  have hgetD : (text.splitOn '\n').getD ((text.splitOn '\n').length - 1) [] =
      (text.splitOn '\n').getLast hne := by
    rw [List.getD_eq_getElem?_getD, ← List.getLast?_eq_getElem?,
      List.getLast?_eq_getLast _ hne, Option.getD_some]
  rw [hgetD]
  conv_lhs => rw [← List.intercalate_splitOn text '\n']
  conv_lhs => rw [← List.dropLast_append_getLast hne]
  refine getLast?_intercalate_concat _ _ _ ?_
  rw [← hgetD]
  exact h

/-- C8 (amended): character-wise paste splits text with line breaks
into separate buffer lines, the first segment joining the text before
the insertion point and the last joining the text after it; for every
non-empty pasted text whose final segment is non-empty the cursor
lands on the last inserted grapheme; when the text ends in a line break
the cursor instead lands at column 0 of the line after the inserted
material.  The conjuncts: a multi-line paste-after and paste-before and
the trailing-line-break case at concrete inputs, then the general
line-break-free case, then the general multi-line case: the buffer
lines become the split segments (first/last joined with the
surrounding text), the cursor moves to the last segment's line, it
sits on `text.getLast?` whenever the final segment is non-empty, and
at column 0 whenever the text ends in `'\n'`. -/
theorem C8_paste_charwise_cursor :
    (((TextBuffer.fromString (chars "AB")).setCursor 0 0).pasteAfterCursor
        (chars "x\ny\nz")).map (fun b => (b.lines, b.cursorRow, b.cursorCol, charAtCursor b)) =
      some ([chars "Ax", chars "y", chars "zB"], 2, 0, some 'z') ∧
    (((TextBuffer.fromString (chars "hello world")).setCursor 0 5).pasteBeforeCursor
        (chars "foo\nbar")).map (fun b => (b.lines, b.cursorRow, b.cursorCol, charAtCursor b)) =
      some ([chars "hellofoo", chars "bar world"], 1, 2, some 'r') ∧
    (((TextBuffer.fromString (chars "AB")).setCursor 0 0).pasteAfterCursor
        (chars "line1\n")).map (fun b => (b.lines, b.cursorRow, b.cursorCol)) =
      some ([chars "Aline1", chars "B"], 1, 0) ∧
    (∀ (b : TextBuffer) (text : List Char) (line : Line) (pos : Nat),
      b.lines.get? b.cursorRow = some line → text ≠ [] → ¬ '\n' ∈ text →
      pos ≤ line.length →
      b.pasteCharwise text pos =
        some { b with
          lines := b.lines.set b.cursorRow (line.take pos ++ text ++ line.drop pos),
          cursorCol := pos + (text.length - 1) } ∧
      (line.take pos ++ text ++ line.drop pos)[pos + (text.length - 1)]? =
        text.getLast?) ∧
    ∀ (b : TextBuffer) (text : List Char) (line : Line) (pos : Nat),
      b.lines.get? b.cursorRow = some line → '\n' ∈ text → pos ≤ line.length →
      b.pasteCharwise text pos =
        some { b with
          lines := b.lines.take b.cursorRow ++
            (line.take pos ++ (text.splitOn '\n').getD 0 []) ::
            (((text.splitOn '\n').drop 1).dropLast ++
              [(text.splitOn '\n').getD ((text.splitOn '\n').length - 1) [] ++
                line.drop pos]) ++
            b.lines.drop (b.cursorRow + 1),
          cursorRow := b.cursorRow + ((text.splitOn '\n').length - 1),
          cursorCol :=
            ((text.splitOn '\n').getD ((text.splitOn '\n').length - 1) []).length - 1 } ∧
      ∀ b2, b.pasteCharwise text pos = some b2 →
        ((text.splitOn '\n').getD ((text.splitOn '\n').length - 1) [] ≠ [] →
          charAtCursor b2 = text.getLast?) ∧
        (text.getLast? = some '\n' → b2.cursorCol = 0) := by
  refine ⟨by decide, by decide, by decide, ?_, ?_⟩
  · intro b text line pos hline hne hnl hpos
    have hlen1 : (line.take pos).length = pos := by
      rw [List.length_take]
      omega
    have htpos : 1 ≤ text.length := List.length_pos.mpr hne
    constructor
    · simp only [TextBuffer.pasteCharwise, hline]
      rw [if_neg hnl]
      rw [Nat.min_eq_left hpos]
    · have hidx : pos + (text.length - 1) < (line.take pos ++ text).length := by
        simp only [List.length_append, hlen1]
        omega
      rw [List.getElem?_append_left hidx]
      have hge : (line.take pos).length ≤ pos + (text.length - 1) := by
        rw [hlen1]
        omega
      rw [List.getElem?_append_right hge, hlen1]
      have hsub : pos + (text.length - 1) - pos = text.length - 1 := by omega
      rw [hsub, List.getLast?_eq_getElem?]
  · intro b text line pos hline hnl hpos
    have hrow : b.cursorRow < b.lines.length := by
      by_contra hge
      rw [List.get?_eq_none.mpr (Nat.le_of_not_lt hge)] at hline
      exact Option.noConfusion hline
    have hexp : b.pasteCharwise text pos =
        some { b with
          lines := b.lines.take b.cursorRow ++
            (line.take pos ++ (text.splitOn '\n').getD 0 []) ::
            (((text.splitOn '\n').drop 1).dropLast ++
              [(text.splitOn '\n').getD ((text.splitOn '\n').length - 1) [] ++
                line.drop pos]) ++
            b.lines.drop (b.cursorRow + 1),
          cursorRow := b.cursorRow + ((text.splitOn '\n').length - 1),
          cursorCol :=
            ((text.splitOn '\n').getD ((text.splitOn '\n').length - 1) []).length - 1 } := by
      simp only [TextBuffer.pasteCharwise, hline]
      rw [if_pos hnl, Nat.min_eq_left hpos]
    refine ⟨hexp, ?_⟩
    intro b2 hb2
    rw [hexp] at hb2
    have hb2eq := (Option.some.inj hb2).symm
    subst hb2eq
    have h2le : 2 ≤ (text.splitOn '\n').length := two_le_length_splitOn text hnl
    have htklen : (b.lines.take b.cursorRow).length = b.cursorRow := by
      rw [List.length_take]
      omega
    have hMlen : (((text.splitOn '\n').drop 1).dropLast).length =
        (text.splitOn '\n').length - 2 := by
      rw [List.length_dropLast, List.length_drop]
      omega
    constructor
    · intro hlast
      have hlpos : 0 <
          ((text.splitOn '\n').getD ((text.splitOn '\n').length - 1) []).length :=
        List.length_pos.mpr hlast
      show ((b.lines.take b.cursorRow ++
          (line.take pos ++ (text.splitOn '\n').getD 0 []) ::
          (((text.splitOn '\n').drop 1).dropLast ++
            [(text.splitOn '\n').getD ((text.splitOn '\n').length - 1) [] ++
              line.drop pos]) ++
          b.lines.drop (b.cursorRow + 1)).getD
            (b.cursorRow + ((text.splitOn '\n').length - 1)) [])[
          ((text.splitOn '\n').getD ((text.splitOn '\n').length - 1) []).length - 1]? =
        text.getLast?
      rw [List.getD_eq_getElem?_getD]
      rw [List.getElem?_append_left (by
        simp only [List.length_append, htklen, List.length_cons, hMlen,
          List.length_singleton]
        omega)]
      rw [List.getElem?_append_right (by rw [htklen]; omega)]
      rw [htklen]
      have hshift : b.cursorRow + ((text.splitOn '\n').length - 1) - b.cursorRow =
          ((((text.splitOn '\n').drop 1).dropLast).length) + 1 := by
        rw [hMlen]
        omega
      rw [hshift, List.getElem?_cons_succ]
      rw [List.getElem?_append_right (le_refl _), Nat.sub_self]
      simp only [List.getElem?_cons_zero, Option.getD_some]
      rw [List.getElem?_append_left (by omega)]
      rw [← List.getLast?_eq_getElem?]
      exact (getLast?_eq_lastSeg text hlast).symm
    · intro hnlend
      show ((text.splitOn '\n').getD ((text.splitOn '\n').length - 1) []).length - 1 = 0
      rw [lastSeg_empty_of_ends_nl text hnlend]
      rfl

/-- Witness for the general multi-line conjunct of C8: pasting
`"a\nbc"` into `"AB"` at grapheme position 1 puts the cursor on the
pasted `c`, the last grapheme of the pasted text. -/
theorem C8_paste_charwise_cursor_witness :
    charAtCursor
      { lines := [chars "Aa", chars "bcB"], cursorRow := 1, cursorCol := 1,
        undoStack := [], redoStack := [] } = (chars "a\nbc").getLast? :=
  ((C8_paste_charwise_cursor.2.2.2.2
      ((TextBuffer.fromString (chars "AB")).setCursor 0 0) (chars "a\nbc")
      (chars "AB") 1 (by decide) (by decide) (by decide)).2
    { lines := [chars "Aa", chars "bcB"], cursorRow := 1, cursorCol := 1,
      undoStack := [], redoStack := [] } (by decide)).1 (by decide)

end Kenotex
